import Mathlib

/-!
Shallow embedding of `src/extract_privatekey.py` (Elements-Studio/bridge).

The program reads a file, strips surrounding whitespace, base64-decodes the
text (Python `base64.b64decode`, non-strict mode), requires at least 33
decoded bytes, slices bytes 1..33, hex-encodes them in lowercase and prints
the result to stdout; every failure writes a diagnostic to stderr and exits
with status 1.

Bytes are modelled as `Nat` (always `< 256` where produced by the decoder);
file contents are `List Char`; the filesystem is a partial map from paths to
contents (`none` models `FileNotFoundError`).
-/

/-- Python `str.strip()` whitespace predicate: the exact set of code points
for which CPython's `Py_UNICODE_ISSPACE` holds. -/
def pyIsSpace (c : Char) : Bool :=
  (0x09 ≤ c.toNat && c.toNat ≤ 0x0d) || (0x1c ≤ c.toNat && c.toNat ≤ 0x1f) ||
  c.toNat = 0x20 || c.toNat = 0x85 || c.toNat = 0xa0 || c.toNat = 0x1680 ||
  (0x2000 ≤ c.toNat && c.toNat ≤ 0x200a) || c.toNat = 0x2028 ||
  c.toNat = 0x2029 || c.toNat = 0x202f || c.toNat = 0x205f || c.toNat = 0x3000

/-- Python `str.strip()`: drop whitespace from both ends. -/
def pyStrip (s : List Char) : List Char :=
  ((s.dropWhile pyIsSpace).reverse.dropWhile pyIsSpace).reverse

/-- Value of a character in the standard base64 alphabet
(`table_a2b_base64` in CPython's `binascii`), `none` for every character
outside the alphabet (those are skipped by the non-strict decoder). -/
def b64val (c : Char) : Option Nat :=
  if 65 ≤ c.toNat ∧ c.toNat ≤ 90 then some (c.toNat - 65)
  else if 97 ≤ c.toNat ∧ c.toNat ≤ 122 then some (c.toNat - 97 + 26)
  else if 48 ≤ c.toNat ∧ c.toNat ≤ 57 then some (c.toNat - 48 + 52)
  else if c.toNat = 43 then some 62
  else if c.toNat = 47 then some 63
  else none

/-- Character of the standard base64 alphabet for a 6-bit value. -/
def b64char (n : Nat) : Char :=
  if n < 26 then Char.ofNat (65 + n)
  else if n < 52 then Char.ofNat (97 + (n - 26))
  else if n < 62 then Char.ofNat (48 + (n - 52))
  else if n = 62 then '+' else '/'

/-- Standard base64 encoding of a byte sequence, with `=` padding
(Python `base64.b64encode`). -/
def b64encode : List Nat → List Char
  | [] => []
  | [a] => [b64char (a / 4), b64char (a % 4 * 16), '=', '=']
  | [a, b] => [b64char (a / 4), b64char (a % 4 * 16 + b / 16),
               b64char (b % 16 * 4), '=']
  | a :: b :: c :: rest =>
      b64char (a / 4) :: b64char (a % 4 * 16 + b / 16) ::
      b64char (b % 16 * 4 + c / 64) :: b64char (c % 64) :: b64encode rest

/-- Core loop of CPython's `binascii.a2b_base64` in non-strict mode
(the mode used by `base64.b64decode` with `validate=False`, the default).
State: `q` is the position inside the current 4-character group,
`p` the number of padding characters seen for the current group,
`l` the bits left over from the previous character, `acc` the output
accumulated in reverse.  Characters outside the alphabet are skipped;
a `=` that completes a group ends decoding, discarding the rest; a
group left incomplete at the end of input is an error (the CPython
messages are abbreviated to fixed strings here). -/
def a2b : List Char → Nat → Nat → Nat → List Nat → Except String (List Nat)
  | [], q, _, _, acc =>
      if q = 0 then .ok acc.reverse
      else if q = 1 then
        .error "Invalid base64-encoded string: number of data characters cannot be 1 more than a multiple of 4"
      else .error "Incorrect padding"
  | c :: rest, q, p, l, acc =>
      if c = '=' then
        if 2 ≤ q then
          if 4 ≤ q + (p + 1) then .ok acc.reverse
          else a2b rest q (p + 1) l acc
        else a2b rest q p l acc
      else
        match b64val c with
        | none => a2b rest q p l acc
        | some v =>
          if q = 0 then a2b rest 1 0 v acc
          else if q = 1 then a2b rest 2 0 (v % 16) ((l * 4 + v / 16) :: acc)
          else if q = 2 then a2b rest 3 0 (v % 4) ((l * 16 + v / 4) :: acc)
          else a2b rest 0 0 0 ((l * 64 + v) :: acc)

/-- Python `base64.b64decode` on a `str`: the string is first encoded as
ASCII (non-ASCII input raises `UnicodeEncodeError`), then fed to
`binascii.a2b_base64`.  `Except.error` models any raised exception. -/
def b64decode (s : List Char) : Except String (List Nat) :=
  if s.all (fun c => c.toNat < 128) then a2b s 0 0 0 []
  else .error "'ascii' codec cannot encode character"

/-- Lowercase hexadecimal digit for a value `< 16`. -/
def hexDigit (n : Nat) : Char :=
  if n < 10 then Char.ofNat (48 + n) else Char.ofNat (87 + n)

/-- Python `bytes.hex()`: two lowercase hex digits per byte, no separator. -/
def bytesToHex : List Nat → List Char
  | [] => []
  | b :: rest => hexDigit (b / 16) :: hexDigit (b % 16) :: bytesToHex rest

/-- Observable result of one program run: exit status and the full
contents of the two output streams. -/
structure Outcome where
  exitCode : Nat
  stdout : String
  stderr : String
  deriving Repr, DecidableEq

/-- The stderr line printed when the decoded payload is shorter than
33 bytes (line 28 of the source; `print` appends a newline). -/
def tooShortMsg (n : Nat) : String :=
  "ERROR: Decoded data too short: " ++ toString n ++ " bytes (expected at least 33)\n"

/-- The stderr line printed when the file does not exist (line 39). -/
def notFoundMsg (path : String) : String :=
  "ERROR: Key file not found: " ++ path ++ "\n"

/-- The stderr line of the catch-all handler (line 42): `ERROR: {e}`. -/
def exceptionMsg (e : String) : String :=
  "ERROR: " ++ e ++ "\n"

/-- The usage line printed for a wrong argument count (line 47). -/
def usageMsg (prog : String) : String :=
  "Usage: " ++ prog ++ " <key_file_path>\n"

/-- `extract_private_key(key_file_path)` from the source: read the file,
strip, base64-decode, check the 33-byte minimum, slice `data[1:33]`,
hex-encode and print.  `fs` maps a path to the file's contents, `none`
meaning the file does not exist. -/
def extract_private_key (fs : String → Option (List Char)) (key_file_path : String) : Outcome :=
  match fs key_file_path with
  | none => ⟨1, "", notFoundMsg key_file_path⟩
  | some content =>
    let key_data := pyStrip content
    match b64decode key_data with
    | .error e => ⟨1, "", exceptionMsg e⟩
    | .ok data =>
      if data.length < 33 then ⟨1, "", tooShortMsg data.length⟩
      else
        let private_key_bytes := (data.drop 1).take 32
        ⟨0, String.mk (bytesToHex private_key_bytes) ++ "\n", ""⟩

/-- The `__main__` block: `argv` is the full argument vector including the
program name (`sys.argv`); any length other than 2 is a usage error. -/
def main_run (fs : String → Option (List Char)) (argv : List String) : Outcome :=
  match argv with
  | [_, key_file_path] => extract_private_key fs key_file_path
  | _ => ⟨1, "", usageMsg (argv.headD "")⟩

/-! ### Facts about the base64 alphabet -/

theorem b64val_b64char : ∀ v : Nat, v < 64 → b64val (b64char v) = some v := by
  decide

theorem b64char_ne_pad : ∀ v : Nat, v < 64 → b64char v ≠ '=' := by
  decide

theorem b64char_ascii : ∀ v : Nat, v < 64 → (b64char v).toNat < 128 := by
  decide

theorem b64char_not_space : ∀ v : Nat, v < 64 → pyIsSpace (b64char v) = false := by
  decide

theorem b64val_lt_64 (c : Char) (v : Nat) (h : b64val c = some v) : v < 64 := by
  unfold b64val at h
  split at h
  · injection h with h; omega
  · split at h
    · injection h with h; omega
    · split at h
      · injection h with h; omega
      · split at h
        · injection h with h; omega
        · split at h
          · injection h with h; omega
          · exact absurd h (by simp)

/-! ### Step lemmas for the decoder loop -/

theorem a2b_data_step (c : Char) (v : Nat) (hc : c ≠ '=') (hv : b64val c = some v)
    (rest : List Char) (q p l : Nat) (acc : List Nat) :
    a2b (c :: rest) q p l acc =
      if q = 0 then a2b rest 1 0 v acc
      else if q = 1 then a2b rest 2 0 (v % 16) ((l * 4 + v / 16) :: acc)
      else if q = 2 then a2b rest 3 0 (v % 4) ((l * 16 + v / 4) :: acc)
      else a2b rest 0 0 0 ((l * 64 + v) :: acc) := by
  rw [a2b, if_neg hc, hv]

theorem a2b_pad_done (rest : List Char) (q p l : Nat) (acc : List Nat)
    (hq : 2 ≤ q) (hp : 4 ≤ q + (p + 1)) :
    a2b ('=' :: rest) q p l acc = .ok acc.reverse := by
  rw [a2b, if_pos rfl, if_pos hq, if_pos hp]

theorem a2b_pad_cont (rest : List Char) (q p l : Nat) (acc : List Nat)
    (hq : 2 ≤ q) (hp : ¬ 4 ≤ q + (p + 1)) :
    a2b ('=' :: rest) q p l acc = a2b rest q (p + 1) l acc := by
  rw [a2b, if_pos rfl, if_pos hq, if_neg hp]

/-! ### Round trip: decoding an encoded byte sequence -/

theorem a2b_b64encode (B : List Nat) (hB : ∀ b ∈ B, b < 256) :
    ∀ (p : Nat) (acc : List Nat),
      a2b (b64encode B) 0 p 0 acc = .ok (acc.reverse ++ B) := by
  induction B using b64encode.induct with
  | case1 =>
      intro p acc
      simp [b64encode, a2b]
  | case2 a =>
      intro p acc
      have ha : a < 256 := hB a (by simp)
      have h1 : a / 4 < 64 := by omega
      have h2 : a % 4 * 16 < 64 := by omega
      rw [b64encode,
        a2b_data_step _ _ (b64char_ne_pad _ h1) (b64val_b64char _ h1),
        if_pos rfl,
        a2b_data_step _ _ (b64char_ne_pad _ h2) (b64val_b64char _ h2),
        if_neg (by omega), if_pos rfl,
        a2b_pad_cont _ _ _ _ _ (by omega) (by omega),
        a2b_pad_done _ _ _ _ _ (by omega) (by omega)]
      simp
      omega
  | case3 a b =>
      intro p acc
      have ha : a < 256 := hB a (by simp)
      have hb : b < 256 := hB b (by simp)
      have h1 : a / 4 < 64 := by omega
      have h2 : a % 4 * 16 + b / 16 < 64 := by omega
      have h3 : b % 16 * 4 < 64 := by omega
      rw [b64encode,
        a2b_data_step _ _ (b64char_ne_pad _ h1) (b64val_b64char _ h1),
        if_pos rfl,
        a2b_data_step _ _ (b64char_ne_pad _ h2) (b64val_b64char _ h2),
        if_neg (by omega), if_pos rfl,
        a2b_data_step _ _ (b64char_ne_pad _ h3) (b64val_b64char _ h3),
        if_neg (by omega), if_neg (by omega), if_pos rfl,
        a2b_pad_done _ _ _ _ _ (by omega) (by omega)]
      have e1 : a / 4 * 4 + (a % 4 * 16 + b / 16) / 16 = a := by omega
      rw [e1]
      simp
      omega
  | case4 a b c rest ih =>
      intro p acc
      have ha : a < 256 := hB a (by simp)
      have hb : b < 256 := hB b (by simp)
      have hc : c < 256 := hB c (by simp)
      have hrest : ∀ x ∈ rest, x < 256 := fun x hx => hB x (by simp [hx])
      have h1 : a / 4 < 64 := by omega
      have h2 : a % 4 * 16 + b / 16 < 64 := by omega
      have h3 : b % 16 * 4 + c / 64 < 64 := by omega
      have h4 : c % 64 < 64 := by omega
      rw [b64encode,
        a2b_data_step _ _ (b64char_ne_pad _ h1) (b64val_b64char _ h1),
        if_pos rfl,
        a2b_data_step _ _ (b64char_ne_pad _ h2) (b64val_b64char _ h2),
        if_neg (by omega), if_pos rfl,
        a2b_data_step _ _ (b64char_ne_pad _ h3) (b64val_b64char _ h3),
        if_neg (by omega), if_neg (by omega), if_pos rfl,
        a2b_data_step _ _ (b64char_ne_pad _ h4) (b64val_b64char _ h4),
        if_neg (by omega), if_neg (by omega), if_neg (by omega)]
      have e1 : a / 4 * 4 + (a % 4 * 16 + b / 16) / 16 = a := by omega
      have e2 : (a % 4 * 16 + b / 16) % 16 * 16 + (b % 16 * 4 + c / 64) / 4 = b := by
        omega
      have e3 : (b % 16 * 4 + c / 64) % 4 * 64 + c % 64 = c := by omega
      rw [e1, e2, e3, ih hrest]
      simp

theorem b64encode_chars (B : List Nat) (hB : ∀ b ∈ B, b < 256) :
    ∀ ch ∈ b64encode B, ch.toNat < 128 ∧ pyIsSpace ch = false := by
  induction B using b64encode.induct with
  | case1 => simp [b64encode]
  | case2 a =>
      have ha : a < 256 := hB a (by simp)
      intro ch hch
      simp only [b64encode, List.mem_cons, List.mem_singleton] at hch
      rcases hch with h | h | h | h | h
      all_goals first
        | (subst h;
           exact ⟨b64char_ascii _ (by omega), b64char_not_space _ (by omega)⟩)
        | (subst h; exact ⟨by decide, by decide⟩)
        | cases h
  | case3 a b =>
      have ha : a < 256 := hB a (by simp)
      have hb : b < 256 := hB b (by simp)
      intro ch hch
      simp only [b64encode, List.mem_cons, List.mem_singleton] at hch
      rcases hch with h | h | h | h | h
      all_goals first
        | (subst h;
           exact ⟨b64char_ascii _ (by omega), b64char_not_space _ (by omega)⟩)
        | (subst h; exact ⟨by decide, by decide⟩)
        | cases h
  | case4 a b c rest ih =>
      have ha : a < 256 := hB a (by simp)
      have hb : b < 256 := hB b (by simp)
      have hc : c < 256 := hB c (by simp)
      have hrest : ∀ x ∈ rest, x < 256 := fun x hx => hB x (by simp [hx])
      intro ch hch
      simp only [b64encode, List.mem_cons] at hch
      rcases hch with h | h | h | h | h
      · subst h; exact ⟨b64char_ascii _ (by omega), b64char_not_space _ (by omega)⟩
      · subst h; exact ⟨b64char_ascii _ (by omega), b64char_not_space _ (by omega)⟩
      · subst h; exact ⟨b64char_ascii _ (by omega), b64char_not_space _ (by omega)⟩
      · subst h; exact ⟨b64char_ascii _ (by omega), b64char_not_space _ (by omega)⟩
      · exact ih hrest ch h

/-! ### `pyStrip` lemmas -/

theorem dropWhile_eq_self_of_not (p : Char → Bool) (s : List Char)
    (h : ∀ c ∈ s, p c = false) : s.dropWhile p = s := by
  cases s with
  | nil => rfl
  | cons a t => rw [List.dropWhile_cons, if_neg (by simp [h a (by simp)])]

theorem pyStrip_eq_self (s : List Char) (h : ∀ c ∈ s, pyIsSpace c = false) :
    pyStrip s = s := by
  unfold pyStrip
  rw [dropWhile_eq_self_of_not _ _ h,
      dropWhile_eq_self_of_not _ _ (by simpa using h), List.reverse_reverse]

theorem dropWhile_append_all (p : Char → Bool) (w t : List Char)
    (hw : ∀ c ∈ w, p c = true) : (w ++ t).dropWhile p = t.dropWhile p := by
  induction w with
  | nil => rfl
  | cons a w ih =>
      rw [List.cons_append, List.dropWhile_cons, if_pos (by simp [hw a (by simp)])]
      exact ih fun c hc => hw c (by simp [hc])

theorem dropWhile_append_of_ne_nil (p : Char → Bool) (s t : List Char)
    (h : s.dropWhile p ≠ []) : (s ++ t).dropWhile p = s.dropWhile p ++ t := by
  rw [List.dropWhile_append, if_neg (by simpa using h)]

/-- Stripping is insensitive to surrounding whitespace: `strip(w1+s+w2)` is
`strip(s)` whenever every character of `w1` and `w2` is whitespace. -/
theorem pyStrip_surround (s w1 w2 : List Char)
    (hw1 : ∀ c ∈ w1, pyIsSpace c = true) (hw2 : ∀ c ∈ w2, pyIsSpace c = true) :
    pyStrip (w1 ++ s ++ w2) = pyStrip s := by
  unfold pyStrip
  rw [List.append_assoc, dropWhile_append_all _ _ _ hw1]
  by_cases hnil : s.dropWhile pyIsSpace = []
  · have hall : ∀ c ∈ s, pyIsSpace c = true := by
      simpa using (List.dropWhile_eq_nil_iff).1 hnil
    have : (s ++ w2).dropWhile pyIsSpace = [] := by
      apply List.dropWhile_eq_nil_iff.2
      intro x hx
      rcases List.mem_append.1 hx with h | h
      · exact hall x h
      · exact hw2 x h
    rw [this, hnil]
  · rw [dropWhile_append_of_ne_nil _ _ _ hnil, List.reverse_append,
        dropWhile_append_all _ _ _ (by simpa using hw2)]

/-! ### Full decode of an encoded sequence -/

theorem b64decode_b64encode (B : List Nat) (hB : ∀ b ∈ B, b < 256) :
    b64decode (b64encode B) = .ok B := by
  unfold b64decode
  rw [if_pos, a2b_b64encode B hB 0 []]
  · simp
  · simp only [List.all_eq_true, decide_eq_true_eq]
    exact fun c hc => (b64encode_chars B hB c hc).1

theorem pyStrip_b64encode (B : List Nat) (hB : ∀ b ∈ B, b < 256) :
    pyStrip (b64encode B) = b64encode B :=
  pyStrip_eq_self _ fun c hc => (b64encode_chars B hB c hc).2

/-! ### Every byte produced by the decoder is below 256 -/

theorem a2b_ok_lt (s : List Char) : ∀ (q p l : Nat) (acc out : List Nat),
    (∀ b ∈ acc, b < 256) →
    (q = 1 → l < 64) → (q = 2 → l < 16) → (3 ≤ q → l < 4) →
    a2b s q p l acc = .ok out → ∀ b ∈ out, b < 256 := by
  induction s with
  | nil =>
      intro q p l acc out hacc h1 h2 h3 h
      unfold a2b at h
      split at h
      · injection h with h; subst h; simpa using hacc
      · split at h <;> cases h
  | cons c rest ih =>
      intro q p l acc out hacc h1 h2 h3 h
      unfold a2b at h
      split at h
      · -- c = '='
        split at h
        · split at h
          · injection h with h; subst h; simpa using hacc
          · exact ih _ _ _ _ _ hacc h1 h2 h3 h
        · exact ih _ _ _ _ _ hacc h1 h2 h3 h
      · -- data character
        split at h
        · exact ih _ _ _ _ _ hacc h1 h2 h3 h
        · rename_i v hv
          have hv64 : v < 64 := b64val_lt_64 c v hv
          split at h
          · exact ih _ _ _ _ _ hacc (fun _ => hv64) (by omega) (by omega) h
          · split at h
            · refine ih _ _ _ _ _ ?_ (by omega) (fun _ => by omega) (by omega) h
              intro b hb
              rcases List.mem_cons.1 hb with hb | hb
              · have := h1 (by assumption); omega
              · exact hacc b hb
            · split at h
              · refine ih _ _ _ _ _ ?_ (by omega) (by omega) (fun _ => by omega) h
                intro b hb
                rcases List.mem_cons.1 hb with hb | hb
                · have := h2 (by assumption); omega
                · exact hacc b hb
              · refine ih _ _ _ _ _ ?_ (by omega) (by omega) (by omega) h
                intro b hb
                rcases List.mem_cons.1 hb with hb | hb
                · have := h3 (by omega); omega
                · exact hacc b hb

theorem b64decode_ok_lt (s : List Char) (out : List Nat)
    (h : b64decode s = .ok out) : ∀ b ∈ out, b < 256 := by
  unfold b64decode at h
  split at h
  · exact a2b_ok_lt s 0 0 0 [] out (by simp) (by omega) (by omega) (by omega) h
  · cases h

/-! ### Hex output facts -/

/-- A lowercase hexadecimal digit: `0`-`9` or `a`-`f`. -/
def isLowerHexDigit (c : Char) : Bool :=
  (48 ≤ c.toNat && c.toNat ≤ 57) || (97 ≤ c.toNat && c.toNat ≤ 102)

theorem hexDigit_lower : ∀ n : Nat, n < 16 → isLowerHexDigit (hexDigit n) = true := by
  decide

theorem bytesToHex_length (bs : List Nat) :
    (bytesToHex bs).length = 2 * bs.length := by
  induction bs with
  | nil => rfl
  | cons b rest ih => simp [bytesToHex, ih]; omega

theorem bytesToHex_lower (bs : List Nat) (h : ∀ b ∈ bs, b < 256) :
    ∀ c ∈ bytesToHex bs, isLowerHexDigit c = true := by
  induction bs with
  | nil => simp [bytesToHex]
  | cons b rest ih =>
      intro c hc
      have hb : b < 256 := h b (by simp)
      rcases List.mem_cons.1 hc with hc | hc
      · subst hc; exact hexDigit_lower _ (by omega)
      · rcases List.mem_cons.1 hc with hc | hc
        · subst hc; exact hexDigit_lower _ (by omega)
        · exact ih (fun x hx => h x (by simp [hx])) c hc


theorem extract_eq_notFound (fs : String → Option (List Char)) (path : String)
    (h : fs path = none) :
    extract_private_key fs path = ⟨1, "", notFoundMsg path⟩ := by
  unfold extract_private_key
  rw [h]

theorem extract_eq_decodeErr (fs : String → Option (List Char)) (path : String)
    (content : List Char) (e : String) (h : fs path = some content)
    (hd : b64decode (pyStrip content) = .error e) :
    extract_private_key fs path = ⟨1, "", exceptionMsg e⟩ := by
  unfold extract_private_key
  rw [h]
  show (match b64decode (pyStrip content) with
    | .error e => (⟨1, "", exceptionMsg e⟩ : Outcome)
    | .ok data =>
      if data.length < 33 then ⟨1, "", tooShortMsg data.length⟩
      else ⟨0, String.mk (bytesToHex ((data.drop 1).take 32)) ++ "\n", ""⟩) = _
  rw [hd]

theorem extract_eq_tooShort (fs : String → Option (List Char)) (path : String)
    (content : List Char) (data : List Nat) (h : fs path = some content)
    (hd : b64decode (pyStrip content) = .ok data) (hlen : data.length < 33) :
    extract_private_key fs path = ⟨1, "", tooShortMsg data.length⟩ := by
  unfold extract_private_key
  rw [h]
  show (match b64decode (pyStrip content) with
    | .error e => (⟨1, "", exceptionMsg e⟩ : Outcome)
    | .ok data =>
      if data.length < 33 then ⟨1, "", tooShortMsg data.length⟩
      else ⟨0, String.mk (bytesToHex ((data.drop 1).take 32)) ++ "\n", ""⟩) = _
  rw [hd]
  simp [hlen]

theorem extract_eq_success (fs : String → Option (List Char)) (path : String)
    (content : List Char) (data : List Nat) (h : fs path = some content)
    (hd : b64decode (pyStrip content) = .ok data) (hlen : ¬ data.length < 33) :
    extract_private_key fs path =
      ⟨0, String.mk (bytesToHex ((data.drop 1).take 32)) ++ "\n", ""⟩ := by
  unfold extract_private_key
  rw [h]
  show (match b64decode (pyStrip content) with
    | .error e => (⟨1, "", exceptionMsg e⟩ : Outcome)
    | .ok data =>
      if data.length < 33 then ⟨1, "", tooShortMsg data.length⟩
      else ⟨0, String.mk (bytesToHex ((data.drop 1).take 32)) ++ "\n", ""⟩) = _
  rw [hd]
  simp [hlen]

theorem main_run_two (fs : String → Option (List Char)) (a path : String) :
    main_run fs [a, path] = extract_private_key fs path := rfl

/-! ### Shape of every program run -/

/-- Every run either fails with status 1, empty stdout and a single stderr
diagnostic, or succeeds with status 0, empty stderr and the hex line built
from the decoded `data[1:33]`. -/
theorem main_run_shape (fs : String → Option (List Char)) (argv : List String) :
    (∃ msg : String, main_run fs argv = ⟨1, "", msg⟩) ∨
    (∃ data : List Nat, 33 ≤ data.length ∧ (∀ b ∈ data, b < 256) ∧
      main_run fs argv =
        ⟨0, String.mk (bytesToHex ((data.drop 1).take 32)) ++ "\n", ""⟩) := by
  rcases argv with _ | ⟨a0, _ | ⟨a1, _ | ⟨a2, r⟩⟩⟩
  · exact Or.inl ⟨_, rfl⟩
  · exact Or.inl ⟨_, rfl⟩
  · rw [main_run_two]
    rcases hfs : fs a1 with _ | content
    · exact Or.inl ⟨_, extract_eq_notFound fs a1 hfs⟩
    · rcases hdec : b64decode (pyStrip content) with e | data
      · exact Or.inl ⟨_, extract_eq_decodeErr fs a1 content e hfs hdec⟩
      · by_cases hlen : data.length < 33
        · exact Or.inl ⟨_, extract_eq_tooShort fs a1 content data hfs hdec hlen⟩
        · exact Or.inr ⟨data, by omega, b64decode_ok_lt _ _ hdec,
            extract_eq_success fs a1 content data hfs hdec hlen⟩
  · exact Or.inl ⟨_, rfl⟩

/-- `extract_private_key` depends on the file's contents only through their
stripped form. -/
theorem extract_congr (fs1 fs2 : String → Option (List Char))
    (path1 path2 : String) (c1 c2 : List Char)
    (h1 : fs1 path1 = some c1) (h2 : fs2 path2 = some c2)
    (hs : pyStrip c1 = pyStrip c2) :
    extract_private_key fs1 path1 = extract_private_key fs2 path2 := by
  rcases hdec : b64decode (pyStrip c2) with e | data
  · rw [extract_eq_decodeErr fs1 path1 c1 e h1 (by rw [hs]; exact hdec),
        extract_eq_decodeErr fs2 path2 c2 e h2 hdec]
  · by_cases hlen : data.length < 33
    · rw [extract_eq_tooShort fs1 path1 c1 data h1 (by rw [hs]; exact hdec) hlen,
          extract_eq_tooShort fs2 path2 c2 data h2 hdec hlen]
    · rw [extract_eq_success fs1 path1 c1 data h1 (by rw [hs]; exact hdec) hlen,
          extract_eq_success fs2 path2 c2 data h2 hdec hlen]

/-! ### The claims -/

/-- C1: for every byte sequence `B` of length at least 33, running the
program on a file whose content is the base64 encoding of `B` succeeds
(exit code 0) and writes to stdout exactly the lowercase hex encoding of
`B[1:33]` followed by the newline of `print`, with nothing on stderr. -/
theorem roundtrip_hex_of_encoded (B : List Nat) (prog path : String)
    (fs : String → Option (List Char))
    (hB : ∀ b ∈ B, b < 256) (hlen : 33 ≤ B.length)
    (hfs : fs path = some (b64encode B)) :
    main_run fs [prog, path] =
      ⟨0, String.mk (bytesToHex ((B.drop 1).take 32)) ++ "\n", ""⟩ := by
  rw [main_run_two]
  have hd : b64decode (pyStrip (b64encode B)) = .ok B := by
    rw [pyStrip_b64encode B hB, b64decode_b64encode B hB]
  exact extract_eq_success fs path _ B hfs hd (by omega)

theorem roundtrip_hex_of_encoded_witness :
    main_run (fun _ => some (b64encode (List.range 33))) ["prog", "key.txt"] =
      ⟨0, "0102030405060708090a0b0c0d0e0f101112131415161718191a1b1c1d1e1f20\n",
       ""⟩ :=
  (roundtrip_hex_of_encoded (List.range 33) "prog" "key.txt" _
    (by decide) (by decide) rfl).trans (by decide)

/-- C2: whenever the decoded content of the input file is shorter than 33
bytes, the program exits with status 1, stdout stays empty, and stderr is
the length diagnostic naming the actual decoded length and the 33-byte
minimum. -/
theorem short_payload_error (fs : String → Option (List Char))
    (prog path : String) (content : List Char) (data : List Nat)
    (hfs : fs path = some content)
    (hdec : b64decode (pyStrip content) = .ok data)
    (hlen : data.length < 33) :
    main_run fs [prog, path] = ⟨1, "", tooShortMsg data.length⟩ := by
  rw [main_run_two]
  exact extract_eq_tooShort fs path content data hfs hdec hlen

theorem short_payload_error_witness :
    main_run (fun _ => some "AAAA".data) ["p", "k"] = ⟨1, "", tooShortMsg 3⟩ :=
  short_payload_error _ "p" "k" "AAAA".data [0, 0, 0] rfl rfl (by decide)

/-- C3: whenever base64-decoding the stripped file content fails (raises),
the program exits with status 1, stdout stays empty, and stderr is the
decoding-failure diagnostic `ERROR: {e}`. -/
theorem invalid_base64_error (fs : String → Option (List Char))
    (prog path : String) (content : List Char) (e : String)
    (hfs : fs path = some content)
    (hdec : b64decode (pyStrip content) = .error e) :
    main_run fs [prog, path] = ⟨1, "", exceptionMsg e⟩ := by
  rw [main_run_two]
  exact extract_eq_decodeErr fs path content e hfs hdec

theorem invalid_base64_error_witness :
    main_run (fun _ => some "QQ".data) ["p", "k"] =
      ⟨1, "", exceptionMsg "Incorrect padding"⟩ :=
  invalid_base64_error _ "p" "k" "QQ".data "Incorrect padding" rfl rfl

/-- C4: on every run, either the exit status is non-zero and stdout is
completely empty, or the run succeeded (status 0), stderr is empty, and
stdout is exactly the hex encoding of 32 bytes followed by a newline. -/
theorem errors_to_stderr_only (fs : String → Option (List Char))
    (argv : List String) :
    ((main_run fs argv).exitCode ≠ 0 ∧ (main_run fs argv).stdout = "") ∨
    ((main_run fs argv).exitCode = 0 ∧ (main_run fs argv).stderr = "" ∧
      ∃ bs : List Nat, bs.length = 32 ∧
        (main_run fs argv).stdout = String.mk (bytesToHex bs) ++ "\n") := by
  rcases main_run_shape fs argv with ⟨msg, h⟩ | ⟨data, hlen, _, h⟩
  · rw [h]
    exact Or.inl ⟨by simp, rfl⟩
  · rw [h]
    refine Or.inr ⟨rfl, rfl, (data.drop 1).take 32, ?_, rfl⟩
    simp
    omega

/-- C5: on every successful run (exit code 0) stdout is exactly one line of
64 lowercase hexadecimal characters followed by a single newline, and
stderr is empty. -/
theorem success_output_format (fs : String → Option (List Char))
    (argv : List String) (h : (main_run fs argv).exitCode = 0) :
    (main_run fs argv).stderr = "" ∧
    ∃ hex : List Char, (main_run fs argv).stdout = String.mk hex ++ "\n" ∧
      hex.length = 64 ∧ ∀ c ∈ hex, isLowerHexDigit c = true := by
  rcases main_run_shape fs argv with ⟨msg, hh⟩ | ⟨data, hlen, hbytes, hh⟩
  · rw [hh] at h
    simp at h
  · rw [hh] at h ⊢
    refine ⟨rfl, bytesToHex ((data.drop 1).take 32), rfl, ?_, ?_⟩
    · rw [bytesToHex_length]
      simp
      omega
    · exact bytesToHex_lower _
        (fun b hb => hbytes b (List.mem_of_mem_drop (List.mem_of_mem_take hb)))

theorem success_output_format_witness :
    (main_run (fun _ => some (b64encode (List.range 33))) ["p", "k"]).exitCode
        = 0 ∧
    ((main_run (fun _ => some (b64encode (List.range 33))) ["p", "k"]).stderr
        = "" ∧
      ∃ hex : List Char,
        (main_run (fun _ => some (b64encode (List.range 33)))
            ["p", "k"]).stdout = String.mk hex ++ "\n" ∧
        hex.length = 64 ∧ ∀ c ∈ hex, isLowerHexDigit c = true) :=
  ⟨rfl, success_output_format (fun _ => some (b64encode (List.range 33)))
    ["p", "k"] rfl⟩

/-- C6: every invocation whose argument vector (program name included) does
not have length 2 exits with status 1, writes the usage diagnostic to
stderr, and writes nothing to stdout. -/
theorem usage_error_wrong_argc (fs : String → Option (List Char))
    (argv : List String) (h : argv.length ≠ 2) :
    main_run fs argv = ⟨1, "", usageMsg (argv.headD "")⟩ := by
  rcases argv with _ | ⟨a0, _ | ⟨a1, _ | ⟨a2, r⟩⟩⟩
  · rfl
  · rfl
  · exact absurd rfl h
  · rfl

theorem usage_error_wrong_argc_witness :
    main_run (fun _ => some "QQ==".data) ["prog"] =
      ⟨1, "", usageMsg "prog"⟩ :=
  usage_error_wrong_argc _ ["prog"] (by decide)

/-- C7: when the path argument does not resolve to an existing file, the
program exits with status 1, stdout stays empty, and stderr is the
path-not-found diagnostic naming the path. -/
theorem missing_file_error (fs : String → Option (List Char))
    (prog path : String) (hfs : fs path = none) :
    main_run fs [prog, path] = ⟨1, "", notFoundMsg path⟩ := by
  rw [main_run_two]
  exact extract_eq_notFound fs path hfs

theorem missing_file_error_witness :
    main_run (fun _ => none) ["prog", "nosuch.key"] =
      ⟨1, "", notFoundMsg "nosuch.key"⟩ :=
  missing_file_error _ "prog" "nosuch.key" rfl

/-- C8: surrounding a successfully-decoding base64 string with whitespace
does not change the program's outcome: the run on `w1 ++ s ++ w2` has the
same stdout, stderr and exit status as the run on `s` alone. -/
theorem whitespace_insensitive (fs1 fs2 : String → Option (List Char))
    (prog1 prog2 path1 path2 : String) (s w1 w2 : List Char)
    (hw1 : ∀ c ∈ w1, pyIsSpace c = true) (hw2 : ∀ c ∈ w2, pyIsSpace c = true)
    (_hok : ∃ d, b64decode (pyStrip s) = .ok d)
    (hf1 : fs1 path1 = some (w1 ++ s ++ w2)) (hf2 : fs2 path2 = some s) :
    main_run fs1 [prog1, path1] = main_run fs2 [prog2, path2] := by
  rw [main_run_two, main_run_two]
  exact extract_congr fs1 fs2 path1 path2 _ s hf1 hf2
    (pyStrip_surround s w1 w2 hw1 hw2)

theorem whitespace_insensitive_witness :
    main_run (fun _ => some "\n QQ==  ".data) ["p1", "k1"] =
      main_run (fun _ => some "QQ==".data) ["p2", "k2"] :=
  whitespace_insensitive _ _ "p1" "p2" "k1" "k2" "QQ==".data "\n ".data
    "  ".data (by decide) (by decide) ⟨[65], rfl⟩ rfl rfl

/-- C9: the outcome of a run depends only on bytes 1..32 of the decoded
payload: two runs whose decoded contents both have length at least 33 and
agree on `data[1:33]` produce identical outcomes. -/
theorem output_depends_only_on_slice (fs1 fs2 : String → Option (List Char))
    (prog1 prog2 path1 path2 : String) (c1 c2 : List Char) (d1 d2 : List Nat)
    (hf1 : fs1 path1 = some c1) (hf2 : fs2 path2 = some c2)
    (h1 : b64decode (pyStrip c1) = .ok d1)
    (h2 : b64decode (pyStrip c2) = .ok d2)
    (hl1 : 33 ≤ d1.length) (hl2 : 33 ≤ d2.length)
    (hagree : (d1.drop 1).take 32 = (d2.drop 1).take 32) :
    main_run fs1 [prog1, path1] = main_run fs2 [prog2, path2] := by
  rw [main_run_two, main_run_two,
    extract_eq_success fs1 path1 c1 d1 hf1 h1 (by omega),
    extract_eq_success fs2 path2 c2 d2 hf2 h2 (by omega), hagree]

theorem output_depends_only_on_slice_witness :
    main_run (fun _ => some (b64encode (List.range 33))) ["p1", "k1"] =
      main_run
        (fun _ => some (b64encode (99 :: ((List.range 33).drop 1 ++ [77]))))
        ["p2", "k2"] :=
  output_depends_only_on_slice _ _ "p1" "p2" "k1" "k2" _ _
    (List.range 33) (99 :: ((List.range 33).drop 1 ++ [77])) rfl rfl
    (by rw [pyStrip_b64encode _ (by decide), b64decode_b64encode _ (by decide)])
    (by rw [pyStrip_b64encode _ (by decide), b64decode_b64encode _ (by decide)])
    (by decide) (by decide) (by decide)

/-- C10: a file that is empty or contains only whitespace strips to the
empty string, which decodes to zero bytes, so the program fails through the
length diagnostic (reporting 0 bytes against the 33-byte minimum), not
through a decode failure, with empty stdout. -/
theorem whitespace_only_file_length_error (fs : String → Option (List Char))
    (prog path : String) (content : List Char)
    (hfs : fs path = some content) (hw : ∀ c ∈ content, pyIsSpace c = true) :
    main_run fs [prog, path] = ⟨1, "", tooShortMsg 0⟩ := by
  rw [main_run_two]
  have h1 : content.dropWhile pyIsSpace = [] :=
    List.dropWhile_eq_nil_iff.2 (by simpa using hw)
  have hstrip : pyStrip content = [] := by
    unfold pyStrip
    rw [h1]
    rfl
  have hdec : b64decode (pyStrip content) = .ok [] := by rw [hstrip]; rfl
  exact extract_eq_tooShort fs path content [] hfs hdec (by simp)

theorem whitespace_only_file_length_error_witness :
    main_run (fun _ => some "\n  ".data) ["p", "k"] =
      ⟨1, "", tooShortMsg 0⟩ :=
  whitespace_only_file_length_error _ "p" "k" "\n  ".data rfl (by decide)
